import Mathlib

/-!
Verification of the embedding service `src/python/embedding_service.py`.

The development has two layers, mirroring the program:

* a pure pipeline layer (formatter, tokenizer boundary, masked mean
  pooling, L2 normalization) over exact rational arithmetic, with the
  external pretrained model abstracted as an `EmbModel` record of
  capabilities (tokenize/forward), as the specification declares it an
  external collaborator;
* a dispatcher layer (JSON commands over stdin/stdout, global
  tokenizer/model state, per-line error containment) where the embedding
  pipeline and the model loaders appear as abstract, possibly failing,
  operations of an environment record.
-/

namespace EmbeddingService

/-! ## Pure pipeline layer -/

/-- Source constant `task_description` from `format_text_for_embedding`. -/
def task_description : String :=
  "Given a web search query, retrieve relevant passages that answer the query"

/-- Source `format_text_for_embedding(text, is_query)`: queries get the
fixed instruction template prepended, passages are returned unchanged. -/
def format_text_for_embedding (text : String) (is_query : Bool) : String :=
  if is_query then
    "Instruct: " ++ task_description ++ "\nQuery: " ++ text
  else
    text

/-- Componentwise addition of two rows (torch elementwise `+`). -/
def vecAdd (v w : List ℚ) : List ℚ := List.zipWith (· + ·) v w

/-- Sum of a list of rows (torch `sum(dim=1)` over the sequence axis of
one batch row; the sequence produced by the tokenizer is nonempty). -/
def sumVecs : List (List ℚ) → List ℚ
  | [] => []
  | v :: vs => vs.foldl vecAdd v

/-- Source `masked_fill(~attention_mask[..., None].bool(), 0.0)` on one
batch row: each position whose mask entry is 0 has its hidden vector
replaced by a zero vector of the same length. -/
def maskFill (h : List (List ℚ)) (m : List ℕ) : List (List ℚ) :=
  List.zipWith (fun v b => if b = 0 then v.map (fun _ => (0 : ℚ)) else v) h m

/-- Source `average_pool(last_hidden_states, attention_mask)`: mask-fill,
sum over the sequence axis, then divide componentwise by
`attention_mask.sum(dim=1)` for that row. -/
def average_pool (hidden : List (List (List ℚ))) (mask : List (List ℕ)) :
    List (List ℚ) :=
  List.zipWith
    (fun h m => (sumVecs (maskFill h m)).map (fun x => x / ((m.sum : ℕ) : ℚ)))
    hidden mask

/-- Pooling as the specification words it: per row, hidden vectors at
mask-0 positions replaced by zero, summed over the sequence axis, divided
componentwise by the count of mask-1 positions of that row. -/
def specMaskedMeanPool (hidden : List (List (List ℚ))) (mask : List (List ℕ)) :
    List (List ℚ) :=
  List.zipWith
    (fun h m =>
      (sumVecs (List.zipWith
          (fun v b => if b = 0 then v.map (fun _ => (0 : ℚ)) else v) h m)).map
        (fun x => x / ((m.count 1 : ℕ) : ℚ)))
    hidden mask

/-- Modelled from the spec: the external pretrained-model collaborator,
an opaque capability bundle (spec section 1): `encode` is the tokenizer on
one text (truncation to 512 tokens is internal to it), `padId` its padding
token id, `forward` maps a padded token-id matrix and attention-mask
matrix to the per-token hidden-state tensor, `dim` is the hidden size,
and `sqrtQ` is the square-root routine inside `F.normalize` (an external
torch operation), abstracted as a rational function. -/
structure EmbModel where
  encode : String → List ℕ
  padId : ℕ
  dim : ℕ
  forward : List (List ℕ) → List (List ℕ) → List (List (List ℚ))
  sqrtQ : ℚ → ℚ

/-- Modelled from the spec: the tokenizer call with `padding=True`,
`truncation=True` (spec section 3, EncodedBatch): each text is encoded
independently, rows are right-padded with the pad id to the batch's own
maximum length, and the attention mask is 1 on real tokens, 0 on padding. -/
def encodeBatch (M : EmbModel) (texts : List String) :
    List (List ℕ) × List (List ℕ) :=
  let toks := texts.map M.encode
  let L := (toks.map List.length).foldr Nat.max 0
  (toks.map (fun t => t ++ List.replicate (L - t.length) M.padId),
   toks.map (fun t => List.replicate t.length 1 ++ List.replicate (L - t.length) 0))

/-- Sum of squares of a row: the square of its Euclidean norm. -/
def sumSq (v : List ℚ) : ℚ := (v.map (fun x => x * x)).sum

/-- Source `F.normalize(embedding, p=2, dim=1)` on one row: divide each
component by the computed Euclidean norm of the row (the model's `sqrtQ`
applied to the sum of squares).  The `eps` clamp of `F.normalize` is not
modelled; it only matters for the all-zero row, which rational division
by zero sends to zero exactly as the clamped float division does. -/
def l2normalizeRow (M : EmbModel) (v : List ℚ) : List ℚ :=
  v.map (fun x => x / M.sqrtQ (sumSq v))

/-- Shared body of `generate_embedding` / `generate_embeddings` after
`initialize_model()`: format every text, tokenize the batch jointly,
run the forward pass once, and pool.  State handling of
`initialize_model` lives in the dispatcher layer. -/
def pooledRows (M : EmbModel) (texts : List String) (is_query : Bool) :
    List (List ℚ) :=
  let inputs := texts.map (fun t => format_text_for_embedding t is_query)
  let em := encodeBatch M inputs
  average_pool (M.forward em.1 em.2) em.2

/-- Source `generate_embedding(text, is_query)`: single-text pipeline,
returning row 0 of the normalized pooled batch of one. -/
def generate_embedding (M : EmbModel) (text : String) (is_query : Bool) :
    List ℚ :=
  ((pooledRows M [text] is_query).map (l2normalizeRow M)).headD []

/-- Source `generate_embeddings(texts, is_query)`: batch pipeline; an
empty `texts` raises `ValueError("Texts must be a non-empty list of
strings")`, modelled as `Except.error`. -/
def generate_embeddings (M : EmbModel) (texts : List String) (is_query : Bool) :
    Except String (List (List ℚ)) :=
  if texts.isEmpty then
    Except.error "Texts must be a non-empty list of strings"
  else
    Except.ok ((pooledRows M texts is_query).map (l2normalizeRow M))

/-- The pooled (pre-normalization) vector of the single-text pipeline. -/
def poolS (M : EmbModel) (text : String) (is_query : Bool) : List ℚ :=
  (pooledRows M [text] is_query).headD []

/-- Row `i` of the pooled (pre-normalization) batch pipeline. -/
def poolB (M : EmbModel) (texts : List String) (is_query : Bool) (i : ℕ) :
    List ℚ :=
  (pooledRows M texts is_query).getD i []

/-- Modelled from the spec: the contract of the external tokenizer and
forward pass (spec sections 1, 3, 4.2 and the padding-correctness
property of section 8): the forward pass returns one hidden row per
input row, of the row's sequence length, with vectors of the hidden
size; hidden states at real (unpadded) positions of a row depend only
on that row's own real tokens; and the tokenizer never returns an empty
token sequence (special tokens are always present). -/
structure ModelContract (M : EmbModel) : Prop where
  rows : ∀ ids msk, (M.forward ids msk).length = ids.length
  rowLen : ∀ ids msk r, ((M.forward ids msk).getD r []).length = (ids.getD r []).length
  vecDim : ∀ ids msk r p, r < ids.length → p < (ids.getD r []).length →
    (((M.forward ids msk).getD r []).getD p []).length = M.dim
  padInv : ∀ ids msk r t L, r < ids.length →
    ids.getD r [] = t ++ List.replicate (L - t.length) M.padId →
    msk.getD r [] = List.replicate t.length 1 ++ List.replicate (L - t.length) (0 : ℕ) →
    ∀ p, p < t.length →
      ((M.forward ids msk).getD r []).getD p [] =
      ((M.forward [t] [List.replicate t.length 1]).getD 0 []).getD p []
  encNe : ∀ s, M.encode s ≠ []

/-! ## Dispatcher layer

JSON values as parsed by `json.loads` (numbers restricted to integers;
no command of the protocol carries a non-integer number).  Python's
`None` arising from `dict.get` on a missing key is identified with JSON
`null`. -/

inductive Json where
  | null : Json
  | bool (b : Bool) : Json
  | num (n : ℚ) : Json
  | str (s : String) : Json
  | arr (elems : List Json) : Json
  | obj (fields : List (String × Json)) : Json

/-- Python truthiness of a JSON value (`if not x` tests). -/
def truthy : Json → Bool
  | Json.null => false
  | Json.bool b => b
  | Json.num n => decide (n ≠ 0)
  | Json.str s => decide (s ≠ "")
  | Json.arr l => !l.isEmpty
  | Json.obj f => !f.isEmpty

/-- Python `isinstance(x, list)` on a JSON value. -/
def isArr : Json → Bool
  | Json.arr _ => true
  | _ => false

/-- A single-quote character as a string (Python repr quoting). -/
def sq : String := String.singleton (Char.ofNat 39)

mutual

/-- Python `repr` of a JSON value, used by `str` on containers.  String
escaping inside reprs is not modelled; no dispatcher response depends on
these strings. -/
def pyRepr : Json → String
  | Json.null => "None"
  | Json.bool true => "True"
  | Json.bool false => "False"
  | Json.num n => toString n
  | Json.str s => sq ++ s ++ sq
  | Json.arr l => "[" ++ pyReprItems l ++ "]"
  | Json.obj f => "\x7b" ++ pyReprFields f ++ "\x7d"

/-- Comma-separated reprs of the elements of a JSON array. -/
def pyReprItems : List Json → String
  | [] => ""
  | [j] => pyRepr j
  | j :: js => pyRepr j ++ ", " ++ pyReprItems js

/-- Comma-separated `key: value` reprs of the fields of a JSON object. -/
def pyReprFields : List (String × Json) → String
  | [] => ""
  | [(k, v)] => sq ++ k ++ sq ++ ": " ++ pyRepr v
  | (k, v) :: fs => sq ++ k ++ sq ++ ": " ++ pyRepr v ++ ", " ++ pyReprFields fs

end

/-- Python `str` of a JSON value, as interpolated by the f-string in the
unknown-command message: `str(None) = "None"`, strings unquoted,
containers via `repr`. -/
def pyStr : Json → String
  | Json.null => "None"
  | Json.bool true => "True"
  | Json.bool false => "False"
  | Json.num n => toString n
  | Json.str s => s
  | Json.arr l => pyRepr (Json.arr l)
  | Json.obj f => pyRepr (Json.obj f)

/-- Python `dict.get(key)`: `json.loads` builds the dict in field order,
later duplicate keys overriding earlier ones, so lookup scans the
reversed field list. -/
def jget (fields : List (String × Json)) (k : String) : Option Json :=
  List.lookup k fields.reverse

/-- The error response object `{"error": msg}`. -/
def mkErr (msg : String) : Json := Json.obj [("error", Json.str msg)]

/-- The CPython message of the `AttributeError` raised by `.get` on a
non-dict JSON line (`'int' object has no attribute 'get'`); the exact
type-name text is approximated and no claim depends on it. -/
def pyAttrErrMsg (j : Json) : String :=
  let tn := match j with
    | Json.null => "NoneType"
    | Json.bool _ => "bool"
    | Json.num _ => "int"
    | Json.str _ => "str"
    | Json.arr _ => "list"
    | Json.obj _ => "dict"
  sq ++ tn ++ sq ++ " object has no attribute " ++ sq ++ "get" ++ sq

/-- The global interpreter state: the module-level `tokenizer` and
`model` variables, each `None` until assigned (handles abstracted as
numbers). -/
structure PState where
  tokenizer : Option ℕ
  model : Option ℕ
deriving DecidableEq

/-- The fixed environment of one service run: the (deterministic)
outcomes of `AutoTokenizer.from_pretrained` and
`AutoModel.from_pretrained`, and the post-initialization behavior of the
single and batch embedding pipelines (formatting, tokenization, forward
pass, pooling, normalization — any of which may raise, modelled as
`Except.error`).  Payload fields reach the pipelines as raw JSON values,
as in the source. -/
structure Env where
  loadTok : Except String ℕ
  loadModel : Except String ℕ
  pipeSingle : Json → Json → Except String (List ℚ)
  pipeBatch : Json → Json → Except String (List (List ℚ))

/-- Observable events of a run: a stdin line received, a successful
tokenizer / model creation, an invocation of the embedding pipeline. -/
inductive Ev where
  | recvLine : Ev
  | tokLoad : Ev
  | modelLoad : Ev
  | pipeCall : Ev
deriving DecidableEq

/-- Source `initialize_model()`: if either global is `None`, load the
tokenizer and then the model.  A failing tokenizer load leaves the state
unchanged; a failing model load leaves the freshly assigned tokenizer in
place (Python assignments are not rolled back by the exception).  The
optional string is the propagating exception. -/
def initialize_model (env : Env) (s : PState) : PState × Option String × List Ev :=
  if s.tokenizer.isNone || s.model.isNone then
    match env.loadTok with
    | Except.error e => (s, some e, [])
    | Except.ok t =>
      match env.loadModel with
      | Except.error e => ({ s with tokenizer := some t }, some e, [Ev.tokLoad])
      | Except.ok m => (⟨some t, some m⟩, none, [Ev.tokLoad, Ev.modelLoad])
  else
    (s, none, [])

/-- Source `process_command(command_json)`: dispatch on the `command`
field; the whole body is wrapped in `try/except Exception`, so every
failure becomes an `{"error": str(e)}` response.  Returns the new
interpreter state, the response object, and the emitted events. -/
def process_command (env : Env) (s : PState) (cmd : Json) :
    PState × Json × List Ev :=
  match cmd with
  | Json.obj fields =>
    match (jget fields "command").getD Json.null with
    | Json.str c =>
      if c = "initialize" then
        match initialize_model env s with
        | (s', none, evs) => (s', Json.obj [("status", Json.str "initialized")], evs)
        | (s', some e, evs) => (s', mkErr e, evs)
      else if c = "generate_embedding" then
        let text := (jget fields "text").getD Json.null
        let isQ := (jget fields "is_query").getD (Json.bool false)
        if truthy text = false then
          (s, mkErr "No text provided", [])
        else
          match initialize_model env s with
          | (s', some e, evs) => (s', mkErr e, evs)
          | (s', none, evs) =>
            match env.pipeSingle text isQ with
            | Except.error e => (s', mkErr e, evs ++ [Ev.pipeCall])
            | Except.ok v =>
                (s', Json.obj [("embedding", Json.arr (v.map Json.num))],
                  evs ++ [Ev.pipeCall])
      else if c = "generate_embeddings" then
        let texts := (jget fields "texts").getD Json.null
        let isQ := (jget fields "is_query").getD (Json.bool false)
        if truthy texts = false || isArr texts = false then
          (s, mkErr "No texts provided or invalid format", [])
        else
          match initialize_model env s with
          | (s', some e, evs) => (s', mkErr e, evs)
          | (s', none, evs) =>
            if truthy texts = false || isArr texts = false then
              (s', mkErr "Texts must be a non-empty list of strings", evs)
            else
              match env.pipeBatch texts isQ with
              | Except.error e => (s', mkErr e, evs ++ [Ev.pipeCall])
              | Except.ok vs =>
                  (s', Json.obj [("embeddings",
                      Json.arr (vs.map (fun v => Json.arr (v.map Json.num))))],
                    evs ++ [Ev.pipeCall])
      else
        (s, mkErr ("Unknown command: " ++ c), [])
    | other => (s, mkErr ("Unknown command: " ++ pyStr other), [])
  | other => (s, mkErr (pyAttrErrMsg other), [])

/-- One iteration of the `main` stdin loop: a line is received; if
`json.loads` fails (`none`), respond `{"error": "Invalid JSON"}`,
otherwise hand the parsed object to `process_command`.  (The loop's
second `except` clause is unreachable: `process_command` catches all its
exceptions and the produced responses are always serializable.) -/
def processLine (env : Env) (s : PState) (line : Option Json) :
    PState × Json × List Ev :=
  match line with
  | none => (s, mkErr "Invalid JSON", [Ev.recvLine])
  | some j =>
    let r := process_command env s j
    (r.1, r.2.1, Ev.recvLine :: r.2.2)

/-- The `main` stdin loop over a finite input stream: one response per
line, threading the interpreter state. -/
def runService (env : Env) (s : PState) (lines : List (Option Json)) :
    PState × List Json × List Ev :=
  match lines with
  | [] => (s, [], [])
  | l :: ls =>
    let r := processLine env s l
    let rest := runService env r.1 ls
    (rest.1, r.2.1 :: rest.2.1, r.2.2 ++ rest.2.2)

/-- Source `main()`: print the startup banner (stderr, not modelled),
call `initialize_model()` once, then run the stdin loop.  A failing
startup initialization propagates out of `main` (it is outside every
`try`), crashing the process before any line is read. -/
def runMain (env : Env) (lines : List (Option Json)) : List Json × List Ev :=
  match initialize_model env ⟨none, none⟩ with
  | (s, none, evs) =>
    let r := runService env s lines
    (r.2.1, evs ++ r.2.2)
  | (_, some _, evs) => ([], evs)

/-- Shape of a legal response line: a success payload
(`{"embedding": ...}`, `{"embeddings": ...}`, `{"status": "initialized"}`)
or an `{"error": string}` object. -/
def isResponse : Json → Bool
  | Json.obj [("error", Json.str _)] => true
  | Json.obj [("embedding", Json.arr _)] => true
  | Json.obj [("embeddings", Json.arr _)] => true
  | Json.obj [("status", Json.str "initialized")] => true
  | _ => false

/-! ## Concrete instances used by witnesses and counterexamples -/

/-- A concrete environment whose loads succeed and whose pipelines return
fixed vectors. -/
def envW : Env :=
  ⟨Except.ok 0, Except.ok 0,
   fun _ _ => Except.ok [1],
   fun _ _ => Except.ok [[1]]⟩

/-- A concrete `generate_embeddings` command whose `texts` is a non-empty
list of non-strings. -/
def cmdNonStringTexts : Json :=
  Json.obj [("command", Json.str "generate_embeddings"),
            ("texts", Json.arr [Json.num 1])]

/-- A concrete model for pipeline witnesses: a text of length `n`
tokenizes to `n + 1` tokens (so batches of different-length texts are
really padded), every token position embeds to the one-dimensional
hidden vector `[1]`, and `sqrtQ` is the identity (exact on `1`). -/
def modelW : EmbModel :=
  ⟨fun s => List.replicate (s.length + 1) 0, 0, 1,
   fun ids _ => ids.map (fun row => row.map (fun _ => [(1 : ℚ)])),
   fun x => x⟩

/-! ## Helper lemmas -/

/-- Sum of a binary mask row equals its count of ones. -/
theorem sum_eq_count_one (m : List ℕ) (hb : ∀ b ∈ m, b ≤ 1) :
    m.sum = m.count 1 := by
  induction m with
  | nil => rfl
  | cons b m ih =>
    have hb0 : b ≤ 1 := hb b (List.mem_cons_self b m)
    have ih' := ih (fun x hx => hb x (List.mem_cons_of_mem b hx))
    interval_cases b
    · simp [List.sum_cons, List.count_cons, ih']
    · simp [List.sum_cons, List.count_cons, ih', Nat.add_comm]

/-- In-range `getD` of a mapped list, with arbitrary defaults. -/
theorem getD_map_lt {α β : Type} (f : α → β) (l : List α) (i : ℕ) (d : α)
    (dd : β) (h : i < l.length) : (l.map f).getD i dd = f (l.getD i d) := by
  rw [List.getD_eq_getElem _ _ (by simpa using h), List.getD_eq_getElem _ _ h,
    List.getElem_map]

/-- In-range `getD` of a zipped list, with arbitrary defaults. -/
theorem getD_zipWith_lt {α β γ : Type} (f : α → β → γ) (a : List α)
    (b : List β) (i : ℕ) (da : α) (db : β) (dc : γ)
    (ha : i < a.length) (hb : i < b.length) :
    (List.zipWith f a b).getD i dc = f (a.getD i da) (b.getD i db) := by
  have hz : i < (List.zipWith f a b).length := by
    rw [List.length_zipWith]; omega
  rw [List.getD_eq_getElem _ _ hz, List.getD_eq_getElem _ _ ha,
    List.getD_eq_getElem _ _ hb, List.getElem_zipWith]

/-- An in-range `getD` element is a member of the list. -/
theorem getD_mem {α : Type} (l : List α) (i : ℕ) (d : α) (h : i < l.length) :
    l.getD i d ∈ l := by
  rw [List.getD_eq_getElem _ _ h]; exact List.getElem_mem h

/-- `headD` of a mapped nonempty list. -/
theorem headD_map_pos {α β : Type} (f : α → β) (l : List α) (d : α) (dd : β)
    (h : 0 < l.length) : (l.map f).headD dd = f (l.getD 0 d) := by
  cases l with
  | nil => simp at h
  | cons x xs => simp

/-- The head-with-default is the zeroth element with default. -/
theorem headD_eq_getD {α : Type} (l : List α) (d : α) :
    l.headD d = l.getD 0 d := by
  cases l <;> rfl

/-- Every member of a list is bounded by the `foldr`-maximum. -/
theorem le_foldr_max (l : List ℕ) (x : ℕ) (hx : x ∈ l) :
    x ≤ l.foldr Nat.max 0 := by
  induction l with
  | nil => simp at hx
  | cons y ys ih =>
    rcases List.mem_cons.mp hx with h | h
    · subst h; exact Nat.le_max_left _ _
    · exact le_trans (ih h) (Nat.le_max_right _ _)

/-- Adding a row of zeros of matching length is the identity. -/
theorem vecAdd_replicate_zero (v : List ℚ) :
    vecAdd v (List.replicate v.length 0) = v := by
  induction v with
  | nil => rfl
  | cons x xs ih => simpa [vecAdd, List.replicate_succ] using ih

/-- `vecAdd` keeps the length of its first argument when lengths agree. -/
theorem vecAdd_length (v w : List ℚ) (h : w.length = v.length) :
    (vecAdd v w).length = v.length := by
  simp [vecAdd, List.length_zipWith]; omega

/-- Folding zero rows onto an accumulator changes nothing. -/
theorem foldl_vecAdd_zeros (zs : List (List ℚ)) (acc : List ℚ)
    (hz : ∀ z ∈ zs, z = List.replicate acc.length 0) :
    zs.foldl vecAdd acc = acc := by
  induction zs with
  | nil => rfl
  | cons z zs ih =>
    rw [List.foldl_cons, hz z (List.mem_cons_self z zs), vecAdd_replicate_zero]
    exact ih (fun z' hz' => hz z' (List.mem_cons_of_mem z hz'))

/-- The sum of a nonempty batch of same-length rows has that length. -/
theorem sumVecs_length (h : List (List ℚ)) (d : ℕ) (hne : h ≠ [])
    (hd : ∀ v ∈ h, v.length = d) : (sumVecs h).length = d := by
  cases h with
  | nil => exact absurd rfl hne
  | cons v vs =>
    have key : ∀ (ws : List (List ℚ)) (acc : List ℚ), acc.length = d →
        (∀ u ∈ ws, u.length = d) → (ws.foldl vecAdd acc).length = d := by
      intro ws
      induction ws with
      | nil => intro acc ha _; simpa using ha
      | cons w ws ih =>
        intro acc ha hws
        rw [List.foldl_cons]
        refine ih (vecAdd acc w) ?_ (fun u hu => hws u (List.mem_cons_of_mem w hu))
        rw [vecAdd_length acc w (by rw [ha, hws w (List.mem_cons_self w ws)])]
        exact ha
    exact key vs v (hd v (List.mem_cons_self v vs))
      (fun u hu => hd u (List.mem_cons_of_mem v hu))

/-- Appending zero rows to a nonempty batch does not change its sum. -/
theorem sumVecs_append_zeros (h zs : List (List ℚ)) (d : ℕ) (hne : h ≠ [])
    (hd : ∀ v ∈ h, v.length = d) (hz : ∀ z ∈ zs, z = List.replicate d 0) :
    sumVecs (h ++ zs) = sumVecs h := by
  cases h with
  | nil => exact absurd rfl hne
  | cons v vs =>
    show (vs ++ zs).foldl vecAdd v = vs.foldl vecAdd v
    rw [List.foldl_append]
    have hlen : (vs.foldl vecAdd v).length = d := by
      simpa [sumVecs] using sumVecs_length (v :: vs) d (by simp) hd
    refine foldl_vecAdd_zeros zs _ (fun z hzz => ?_)
    rw [hlen]
    exact hz z hzz

/-- Mask-filling with an all-ones mask of matching length keeps the rows. -/
theorem zipWith_fill_ones (h : List (List ℚ)) (n : ℕ) (hl : h.length = n) :
    List.zipWith (fun v b => if b = 0 then v.map (fun _ => (0 : ℚ)) else v)
      h (List.replicate n 1) = h := by
  induction h generalizing n with
  | nil => simp
  | cons v vs ih =>
    cases n with
    | zero => simp at hl
    | succ n =>
      rw [List.replicate_succ, List.zipWith_cons_cons, ih n (by simpa using hl)]
      simp

/-- Mask-filling with an all-zeros mask of matching length zeroes the rows. -/
theorem zipWith_fill_zeros (h : List (List ℚ)) (n : ℕ) (hl : h.length = n) :
    List.zipWith (fun v b => if b = 0 then v.map (fun _ => (0 : ℚ)) else v)
      h (List.replicate n 0) = h.map (fun v => v.map (fun _ => (0 : ℚ))) := by
  induction h generalizing n with
  | nil => simp
  | cons v vs ih =>
    cases n with
    | zero => simp at hl
    | succ n =>
      rw [List.replicate_succ, List.zipWith_cons_cons, ih n (by simpa using hl),
        List.map_cons]
      simp

/-- The sum of a ones-then-zeros attention-mask row is its ones count. -/
theorem sum_ones_zeros (a b : ℕ) :
    (List.replicate a (1 : ℕ) ++ List.replicate b 0).sum = a := by
  simp [List.sum_append, List.sum_replicate]

/-- Sum of squares of a cons. -/
theorem sumSq_cons (x : ℚ) (v : List ℚ) : sumSq (x :: v) = x * x + sumSq v := by
  simp [sumSq]

/-- Sum of squares after dividing every component by `r` (also valid for
`r = 0`, where both sides vanish). -/
theorem sumSq_map_div (v : List ℚ) (r : ℚ) :
    sumSq (v.map (fun x => x / r)) = sumSq v / (r * r) := by
  induction v with
  | nil => simp [sumSq]
  | cons x xs ih =>
    rw [List.map_cons, sumSq_cons, sumSq_cons, ih, div_mul_div_comm, add_div]

/-- A row divided by an exact square root of its sum of squares has unit
sum of squares. -/
theorem l2normalizeRow_unitSq (M : EmbModel) (v : List ℚ)
    (hr : M.sqrtQ (sumSq v) * M.sqrtQ (sumSq v) = sumSq v)
    (h0 : sumSq v ≠ 0) : sumSq (l2normalizeRow M v) = 1 := by
  unfold l2normalizeRow
  rw [sumSq_map_div, hr, div_self h0]

/-- The token-id matrix of an encoded batch, unfolded. -/
theorem encodeBatch_fst (M : EmbModel) (ts : List String) :
    (encodeBatch M ts).1 = (ts.map M.encode).map
      (fun t => t ++ List.replicate
        ((((ts.map M.encode).map List.length).foldr Nat.max 0) - t.length)
        M.padId) := rfl

/-- The attention-mask matrix of an encoded batch, unfolded. -/
theorem encodeBatch_snd (M : EmbModel) (ts : List String) :
    (encodeBatch M ts).2 = (ts.map M.encode).map
      (fun t => List.replicate t.length 1 ++ List.replicate
        ((((ts.map M.encode).map List.length).foldr Nat.max 0) - t.length)
        0) := rfl

/-- Encoding a batch of one text adds no padding: the row is the text's
own tokens and the mask is all ones. -/
theorem encodeBatch_single (M : EmbModel) (s : String) :
    encodeBatch M [s] =
      ([M.encode s], [List.replicate (M.encode s).length 1]) := by
  unfold encodeBatch
  simp [Nat.sub_self, Nat.max_zero]

/-- The pipeline returns one pooled row per input text. -/
theorem length_pooledRows (M : EmbModel) (hM : ModelContract M)
    (texts : List String) (q : Bool) :
    (pooledRows M texts q).length = texts.length := by
  unfold pooledRows average_pool
  rw [List.length_zipWith, hM.rows, encodeBatch_fst, encodeBatch_snd]
  simp

/-- The pooled single-text pipeline, in closed form: the unmasked sum of
the row's hidden vectors divided by its token count. -/
theorem pooledRows_single (M : EmbModel) (hM : ModelContract M)
    (s : String) (q : Bool) :
    pooledRows M [s] q =
      [(sumVecs ((M.forward [M.encode (format_text_for_embedding s q)]
          [List.replicate (M.encode (format_text_for_embedding s q)).length 1]).getD
            0 [])).map
        (fun x => x /
          ((M.encode (format_text_for_embedding s q)).length : ℚ))] := by
  unfold pooledRows
  dsimp only
  rw [show [s].map (fun u => format_text_for_embedding u q) =
      [format_text_for_embedding s q] from rfl]
  rw [encodeBatch_single]
  set t := M.encode (format_text_for_embedding s q) with hts
  have h1 : (M.forward [t] [List.replicate t.length 1]).length = 1 := by
    rw [hM.rows]; rfl
  have h0 : ((M.forward [t] [List.replicate t.length 1]).getD 0 []).length =
      t.length := by
    have := hM.rowLen [t] [List.replicate t.length 1] 0
    simpa using this
  rcases hH : M.forward [t] [List.replicate t.length 1] with _ | ⟨hv, rest⟩
  · rw [hH] at h1; simp at h1
  · rw [hH] at h1 h0
    have hrest : rest = [] := by
      simpa using h1
    subst hrest
    unfold average_pool
    simp only [List.zipWith_cons_cons, List.zipWith_nil_left, maskFill,
      List.getD_cons_zero]
    rw [zipWith_fill_ones hv t.length (by simpa using h0)]
    simp [List.sum_replicate]

/-- Central padding-correctness lemma: under the external model contract,
row `i` of the pooled batch equals the pooled row of the `i`-th text
embedded alone — the padding added to match the batch's longest row is
masked out of the sum and the divisor counts only real tokens. -/
theorem pooledRows_getD_batch (M : EmbModel) (hM : ModelContract M)
    (texts : List String) (q : Bool) (i : ℕ) (hi : i < texts.length) :
    (pooledRows M texts q).getD i [] =
      (pooledRows M [texts.getD i ""] q).getD 0 [] := by
  rw [pooledRows_single M hM (texts.getD i "") q, List.getD_cons_zero]
  set inputs := texts.map (fun u => format_text_for_embedding u q) with hin
  set toks := inputs.map M.encode with htk
  set L := (toks.map List.length).foldr Nat.max 0 with hLdef
  set t := M.encode (format_text_for_embedding (texts.getD i "") q) with htdef
  set k := t.length with hkdef
  have hin_len : inputs.length = texts.length := by
    rw [hin]; exact List.length_map _ _
  have htk_len : toks.length = texts.length := by
    rw [htk, List.length_map]; exact hin_len
  have htoks_i : toks.getD i [] = t := by
    rw [htk, getD_map_lt M.encode inputs i "" [] (by omega), hin,
      getD_map_lt _ texts i "" "" hi]
  have hkL : k ≤ L := by
    have hmem : toks.getD i [] ∈ toks := getD_mem toks i [] (by omega)
    have hmem2 : (toks.getD i []).length ∈ toks.map List.length :=
      List.mem_map_of_mem List.length hmem
    rw [htoks_i] at hmem2
    rw [hkdef, hLdef]
    exact le_foldr_max _ _ hmem2
  have hids : (encodeBatch M inputs).1 =
      toks.map (fun u => u ++ List.replicate (L - u.length) M.padId) := by
    rw [encodeBatch_fst, ← htk, ← hLdef]
  have hmsk : (encodeBatch M inputs).2 =
      toks.map (fun u => List.replicate u.length 1 ++
        List.replicate (L - u.length) 0) := by
    rw [encodeBatch_snd, ← htk, ← hLdef]
  have hids_len : (encodeBatch M inputs).1.length = texts.length := by
    rw [hids, List.length_map]; omega
  have hmsk_len : (encodeBatch M inputs).2.length = texts.length := by
    rw [hmsk, List.length_map]; omega
  have hids_i : (encodeBatch M inputs).1.getD i [] =
      t ++ List.replicate (L - k) M.padId := by
    rw [hids, getD_map_lt _ toks i [] [] (by omega), htoks_i]
  have hmsk_i : (encodeBatch M inputs).2.getD i [] =
      List.replicate k 1 ++ List.replicate (L - k) 0 := by
    rw [hmsk, getD_map_lt _ toks i [] [] (by omega), htoks_i]
  have hH_len :
      (M.forward (encodeBatch M inputs).1 (encodeBatch M inputs).2).length =
        texts.length := by
    rw [hM.rows]; exact hids_len
  have hklen : t.length = k := hkdef.symm
  have hHi_len :
      ((M.forward (encodeBatch M inputs).1 (encodeBatch M inputs).2).getD
        i []).length = L := by
    rw [hM.rowLen, hids_i, List.length_append, List.length_replicate]
    omega
  have hrow : (pooledRows M texts q).getD i [] =
      (sumVecs (maskFill
        ((M.forward (encodeBatch M inputs).1 (encodeBatch M inputs).2).getD
          i [])
        ((encodeBatch M inputs).2.getD i []))).map
        (fun x => x / ((((encodeBatch M inputs).2.getD i []).sum : ℕ) : ℚ)) := by
    unfold pooledRows average_pool
    dsimp only
    rw [← hin]
    exact getD_zipWith_lt _ _ _ i [] [] [] (by omega) (by omega)
  rw [hrow, hmsk_i, sum_ones_zeros k (L - k)]
  set Hi := (M.forward (encodeBatch M inputs).1 (encodeBatch M inputs).2).getD
    i [] with hHidef
  have htake_len : (Hi.take k).length = k := by
    rw [List.length_take, hHi_len]; omega
  have hdrop_len : (Hi.drop k).length = L - k := by
    rw [List.length_drop, hHi_len]
  have hfill : maskFill Hi
      (List.replicate k 1 ++ List.replicate (L - k) 0) =
      Hi.take k ++ (Hi.drop k).map (fun v => v.map (fun _ => (0 : ℚ))) := by
    conv_lhs => rw [← List.take_append_drop k Hi]
    unfold maskFill
    rw [List.zipWith_append _ _ _ _ _
      (by rw [htake_len, List.length_replicate])]
    rw [zipWith_fill_ones _ k htake_len, zipWith_fill_zeros _ (L - k) hdrop_len]
  rw [hfill]
  have hdim : ∀ v ∈ Hi, v.length = M.dim := by
    intro v hv
    rcases List.mem_iff_getElem.mp hv with ⟨p, hp, hpv⟩
    have hpL' : p < L := by rw [← hHi_len]; exact hp
    have hpL : p < ((encodeBatch M inputs).1.getD i []).length := by
      rw [hids_i, List.length_append, List.length_replicate]
      omega
    have hvd := hM.vecDim (encodeBatch M inputs).1 (encodeBatch M inputs).2
      i p (by omega) hpL
    rw [← hHidef] at hvd
    rw [List.getD_eq_getElem _ _ hp, hpv] at hvd
    exact hvd
  have hzeros : ∀ z ∈ (Hi.drop k).map (fun v => v.map (fun _ => (0 : ℚ))),
      z = List.replicate M.dim 0 := by
    intro z hz
    rcases List.mem_map.mp hz with ⟨v, hv, hzv⟩
    have hvd : v.length = M.dim := hdim v (List.drop_subset k Hi hv)
    rw [← hzv, ← hvd]
    simp [List.map_const]
  have htake_dim : ∀ v ∈ Hi.take k, v.length = M.dim :=
    fun v hv => hdim v (List.take_subset k Hi hv)
  have hk_pos : 0 < k := by
    rw [hkdef, htdef]
    exact List.length_pos.mpr (hM.encNe _)
  have htake_ne : Hi.take k ≠ [] := by
    intro hcon
    have hcl := congrArg List.length hcon
    rw [htake_len] at hcl
    simp at hcl
    omega
  rw [sumVecs_append_zeros (Hi.take k) _ M.dim htake_ne htake_dim hzeros]
  have hHs0_len : ((M.forward [t] [List.replicate k 1]).getD 0 []).length =
      k := by
    have hr := hM.rowLen [t] [List.replicate k 1] 0
    simpa [← hkdef] using hr
  have htake_eq : Hi.take k =
      (M.forward [t] [List.replicate k 1]).getD 0 [] := by
    apply List.ext_getElem (by rw [htake_len, hHs0_len])
    intro p h1 h2
    rw [List.getElem_take]
    have hpk : p < k := by rwa [htake_len] at h1
    have hp1 : p < Hi.length := by rw [hHi_len]; omega
    have hpinv := hM.padInv (encodeBatch M inputs).1 (encodeBatch M inputs).2
      i t L (by omega) hids_i (by rw [hmsk_i, hklen]) p (by omega)
    rw [← hHidef] at hpinv
    rw [hklen] at hpinv
    rw [List.getD_eq_getElem _ _ hp1, List.getD_eq_getElem _ _ h2] at hpinv
    exact hpinv
  rw [htake_eq]

/-! ## Claim C1 -/

/-- C1: masked mean pooling.  For every hidden-state tensor and binary
attention mask, `average_pool` (mask-fill, sum over the sequence axis,
divide by the mask-row sum) computes exactly the specification's masked
mean: the sum of per-token hidden vectors with mask-0 positions replaced
by zero, divided componentwise by the count of mask-1 positions of the
row. -/
theorem c1_average_pool_is_masked_mean
    (hidden : List (List (List ℚ))) (mask : List (List ℕ))
    (hb : ∀ m ∈ mask, ∀ b ∈ m, b ≤ 1) :
    average_pool hidden mask = specMaskedMeanPool hidden mask := by
  unfold average_pool specMaskedMeanPool maskFill
  induction hidden generalizing mask with
  | nil => simp
  | cons h hs ih =>
    cases mask with
    | nil => simp
    | cons m ms =>
      have hm : ∀ b ∈ m, b ≤ 1 := hb m (List.mem_cons_self m ms)
      have hms : ∀ m' ∈ ms, ∀ b ∈ m', b ≤ 1 :=
        fun m' hm' => hb m' (List.mem_cons_of_mem m hm')
      simp only [List.zipWith_cons_cons]
      rw [sum_eq_count_one m hm, ih ms hms]

/-- Witness for C1 at a concrete tensor and mask. -/
theorem c1_average_pool_is_masked_mean_witness :
    average_pool [[[2, 4], [6, 8], [10, 12]]] [[1, 1, 0]] =
      specMaskedMeanPool [[[2, 4], [6, 8], [10, 12]]] [[1, 1, 0]] :=
  c1_average_pool_is_masked_mean
    [[[2, 4], [6, 8], [10, 12]]] [[1, 1, 0]] (by decide)

/-! ## Claim C4 -/

/-- C4: the formatter.  For every string, `is_query = true` yields exactly
the fixed instruction template followed by the text, and
`is_query = false` yields the text unchanged; the function is a pure
total function on strings. -/
theorem c4_format_text_contract (text : String) :
    format_text_for_embedding text true =
      "Instruct: Given a web search query, retrieve relevant passages that answer the query\nQuery: "
        ++ text ∧
    format_text_for_embedding text false = text := by
  constructor
  · show "Instruct: " ++ task_description ++ "\nQuery: " ++ text = _
    have h : "Instruct: " ++ task_description ++ "\nQuery: " =
        "Instruct: Given a web search query, retrieve relevant passages that answer the query\nQuery: " := by
      decide
    rw [h]
  · rfl

/-- The concrete witness model satisfies the external model contract. -/
theorem modelW_contract : ModelContract modelW := by
  constructor
  · intro ids msk
    simp [modelW]
  · intro ids msk r
    rcases Nat.lt_or_ge r ids.length with h | h
    · simp only [modelW]
      rw [getD_map_lt _ ids r [] [] h]
      simp
    · simp only [modelW]
      rw [List.getD_eq_default _ _ (by simpa using h),
        List.getD_eq_default _ _ h]
      rfl
  · intro ids msk r p hr hp
    simp only [modelW]
    rw [getD_map_lt _ ids r [] [] hr]
    rw [getD_map_lt _ (ids.getD r []) p 0 [] hp]
    rfl
  · intro ids msk r t L hr hid hmk p hp
    simp only [modelW]
    rw [getD_map_lt _ ids r [] [] hr]
    have hplen : p < (ids.getD r []).length := by
      rw [hid, List.length_append, List.length_replicate]
      omega
    rw [getD_map_lt _ (ids.getD r []) p 0 [] hplen]
    rw [show (List.map (fun row => row.map (fun _ => [(1 : ℚ)])) [t]).getD 0 [] =
        t.map (fun _ => [(1 : ℚ)]) from rfl]
    rw [getD_map_lt _ t p 0 [] hp]
  · intro s
    simp [modelW]

/-! ## Claim C2 -/

/-- C2: batch/single agreement and order preservation.  Under the
external model contract (padding-invariant forward pass, shape-correct
tensors, nonempty tokenizations), for every non-empty text list, flag and
index, row `i` of `generate_embeddings` equals `generate_embedding` of
the `i`-th text alone, in exact rational arithmetic — batch padding does
not change a shorter row's result. -/
theorem c2_batch_single_agreement (M : EmbModel) (hM : ModelContract M)
    (texts : List String) (q : Bool) (i : ℕ) (hi : i < texts.length) :
    ∃ out, generate_embeddings M texts q = Except.ok out ∧
      out.getD i [] = generate_embedding M (texts.getD i "") q := by
  have hne : texts.isEmpty = false := by
    cases texts
    · simp at hi
    · rfl
  refine ⟨(pooledRows M texts q).map (l2normalizeRow M), ?_, ?_⟩
  · simp [generate_embeddings, hne]
  · rw [getD_map_lt (l2normalizeRow M) _ i [] []
      (by rw [length_pooledRows M hM]; omega)]
    unfold generate_embedding
    rw [headD_map_pos (l2normalizeRow M) _ [] []
      (by rw [length_pooledRows M hM]; simp)]
    rw [pooledRows_getD_batch M hM texts q i hi]

/-- Witness for C2: a batch whose first row is genuinely padded (the
witness model tokenizes "a" to two tokens and "bb" to three). -/
theorem c2_batch_single_agreement_witness :
    ∃ out, generate_embeddings modelW ["a", "bb"] false = Except.ok out ∧
      out.getD 0 [] = generate_embedding modelW (["a", "bb"].getD 0 "") false :=
  c2_batch_single_agreement modelW modelW_contract ["a", "bb"] false 0
    (by decide)

/-! ## Claim C3 -/

/-- C3: unit norm.  In exact arithmetic, whenever the normalization's
square root is exact on the pooled row's sum of squares and that sum is
nonzero, every vector returned by `generate_embedding` and every row
returned by `generate_embeddings` has squared Euclidean norm exactly 1
(so Euclidean norm 1; the float implementation attains this within
tolerance). -/
theorem c3_unit_norm (M : EmbModel) (hM : ModelContract M)
    (text : String) (q : Bool)
    (hs1 : M.sqrtQ (sumSq (poolS M text q)) * M.sqrtQ (sumSq (poolS M text q)) =
      sumSq (poolS M text q))
    (hs2 : sumSq (poolS M text q) ≠ 0)
    (texts : List String) (tq : Bool) (i : ℕ) (hi : i < texts.length)
    (hb1 : M.sqrtQ (sumSq (poolB M texts tq i)) *
      M.sqrtQ (sumSq (poolB M texts tq i)) = sumSq (poolB M texts tq i))
    (hb2 : sumSq (poolB M texts tq i) ≠ 0) :
    sumSq (generate_embedding M text q) = 1 ∧
    ∃ out, generate_embeddings M texts tq = Except.ok out ∧
      sumSq (out.getD i []) = 1 := by
  constructor
  · have h1 : generate_embedding M text q =
        l2normalizeRow M (poolS M text q) := by
      unfold generate_embedding poolS
      rw [headD_map_pos (l2normalizeRow M) _ [] []
        (by rw [length_pooledRows M hM]; simp)]
      rw [headD_eq_getD]
    rw [h1]
    exact l2normalizeRow_unitSq M _ hs1 hs2
  · have hne : texts.isEmpty = false := by
      cases texts
      · simp at hi
      · rfl
    refine ⟨(pooledRows M texts tq).map (l2normalizeRow M),
      by simp [generate_embeddings, hne], ?_⟩
    rw [getD_map_lt (l2normalizeRow M) _ i [] []
      (by rw [length_pooledRows M hM]; omega)]
    exact l2normalizeRow_unitSq M _ hb1 hb2

/-- Witness for C3 at concrete texts under the witness model. -/
theorem c3_unit_norm_witness :
    sumSq (generate_embedding modelW "a" false) = 1 ∧
    ∃ out, generate_embeddings modelW ["a", "bb"] false = Except.ok out ∧
      sumSq (out.getD 1 []) = 1 := by
  have hp : poolS modelW "a" false = [1] := by
    unfold poolS
    rw [pooledRows_single modelW modelW_contract "a" false]
    have e1 : modelW.encode (format_text_for_embedding "a" false) = [0, 0] := by
      show List.replicate ("a".length + 1) 0 = [0, 0]
      have hl : "a".length = 1 := by decide
      rw [hl]
      rfl
    rw [e1]
    norm_num [modelW, sumVecs, vecAdd, List.replicate]
  have hpb : poolB modelW ["a", "bb"] false 1 = [1] := by
    unfold poolB
    rw [pooledRows_getD_batch modelW modelW_contract ["a", "bb"] false 1
      (by decide)]
    rw [show (["a", "bb"].getD 1 "") = "bb" from rfl]
    rw [pooledRows_single modelW modelW_contract "bb" false,
      List.getD_cons_zero]
    have e1 : modelW.encode (format_text_for_embedding "bb" false) =
        [0, 0, 0] := by
      show List.replicate ("bb".length + 1) 0 = [0, 0, 0]
      have hl : "bb".length = 2 := by decide
      rw [hl]
      rfl
    rw [e1]
    norm_num [modelW, sumVecs, vecAdd, List.replicate]
  exact c3_unit_norm modelW modelW_contract "a" false
    (by rw [hp]; norm_num [modelW, sumSq])
    (by rw [hp]; norm_num [sumSq])
    ["a", "bb"] false 1 (by decide)
    (by rw [hpb]; norm_num [modelW, sumSq])
    (by rw [hpb]; norm_num [sumSq])

/-! ## Claim C10 -/

/-- C10: a JSON object line without a `command` field is routed through
the unknown-command branch, with the absent field read as `None`, and the
response is exactly `{"error": "Unknown command: None"}`. -/
theorem c10_missing_command_field (env : Env) (s : PState)
    (fields : List (String × Json)) (h : jget fields "command" = none) :
    process_command env s (Json.obj fields) =
      (s, mkErr "Unknown command: None", []) := by
  simp [process_command, h, pyStr]

/-- Witness for C10 on the empty JSON object. -/
theorem c10_missing_command_field_witness :
    process_command envW ⟨none, none⟩ (Json.obj []) =
      (⟨none, none⟩, mkErr "Unknown command: None", []) :=
  c10_missing_command_field envW ⟨none, none⟩ [] rfl

/-! ## Claim C8 -/

/-- C8: initialization idempotence.  From any state in which both handles
already exist, an `initialize` command leaves the state (model and
tokenizer) unchanged, performs no load, and responds
`{"status": "initialized"}`; a second consecutive `initialize` returns
the same success status. -/
theorem c8_initialize_idempotent (env : Env) (s : PState)
    (fields : List (String × Json)) (t m : ℕ)
    (ht : s.tokenizer = some t) (hm : s.model = some m)
    (hc : jget fields "command" = some (Json.str "initialize")) :
    process_command env s (Json.obj fields) =
      (s, Json.obj [("status", Json.str "initialized")], []) ∧
    (process_command env (process_command env s (Json.obj fields)).1
        (Json.obj fields)).2.1 =
      Json.obj [("status", Json.str "initialized")] := by
  have h1 : process_command env s (Json.obj fields) =
      (s, Json.obj [("status", Json.str "initialized")], []) := by
    simp [process_command, hc, initialize_model, ht, hm]
  refine ⟨h1, ?_⟩
  rw [h1]
  show (process_command env s (Json.obj fields)).2.1 = _
  rw [h1]

/-- Witness for C8 at a concrete ready state. -/
theorem c8_initialize_idempotent_witness :
    process_command envW ⟨some 0, some 0⟩
        (Json.obj [("command", Json.str "initialize")]) =
      (⟨some 0, some 0⟩, Json.obj [("status", Json.str "initialized")], []) ∧
    (process_command envW (process_command envW ⟨some 0, some 0⟩
          (Json.obj [("command", Json.str "initialize")])).1
        (Json.obj [("command", Json.str "initialize")])).2.1 =
      Json.obj [("status", Json.str "initialized")] :=
  c8_initialize_idempotent envW ⟨some 0, some 0⟩
    [("command", Json.str "initialize")] 0 0 rfl rfl rfl

/-! ## Claim C6 -/

/-- Counterexample to C6 as stated: a `generate_embeddings` command whose
`texts` is the non-empty list `[1]` of non-strings passes the
`not texts or not isinstance(texts, list)` validation, so the dispatcher
does not respond with the invalid-format error and does invoke the
embedding pipeline. -/
theorem c6_counterexample :
    (process_command envW ⟨some 0, some 0⟩ cmdNonStringTexts).2.1 ≠
      mkErr "No texts provided or invalid format" ∧
    Ev.pipeCall ∈ (process_command envW ⟨some 0, some 0⟩ cmdNonStringTexts).2.2 := by
  constructor
  · intro h
    have h' : Json.obj [("embeddings", Json.arr [Json.arr [Json.num 1]])] =
        mkErr "No texts provided or invalid format" := h
    simp [mkErr] at h'
  · decide

/-- C6 (amended): for every `generate_embeddings` command whose `texts`
field is falsy (missing, `null`, empty list, or otherwise falsy) or not a
list, the dispatcher responds with exactly
`{"error": "No texts provided or invalid format"}`, leaves the state
unchanged, and does not invoke the embedding pipeline; a non-empty list
is accepted by this validation regardless of its element types. -/
theorem c6_batch_validation (env : Env) (s : PState)
    (fields : List (String × Json))
    (hc : jget fields "command" = some (Json.str "generate_embeddings"))
    (hbad : truthy ((jget fields "texts").getD Json.null) = false ∨
            isArr ((jget fields "texts").getD Json.null) = false) :
    process_command env s (Json.obj fields) =
      (s, mkErr "No texts provided or invalid format", []) := by
  rcases hbad with h | h <;> simp [process_command, hc, h]

/-- Witness for the amended C6 on `texts: []`. -/
theorem c6_batch_validation_witness :
    process_command envW ⟨none, none⟩
        (Json.obj [("command", Json.str "generate_embeddings"),
                   ("texts", Json.arr [])]) =
      (⟨none, none⟩, mkErr "No texts provided or invalid format", []) :=
  c6_batch_validation envW ⟨none, none⟩
    [("command", Json.str "generate_embeddings"), ("texts", Json.arr [])]
    rfl (Or.inl rfl)

/-! ## Claim C7 -/

/-- Every `process_command` result is a well-shaped response object:
the `try/except` boundary converts every failure into `{"error": msg}`. -/
theorem process_command_shape (env : Env) (s : PState) (cmd : Json) :
    isResponse (process_command env s cmd).2.1 = true := by
  rcases cmd with _ | b | n | t | l | fields <;>
    try simp [process_command, isResponse, mkErr]
  rcases hcmd : (jget fields "command").getD Json.null with _ | b | n | c | l | f <;>
    try simp [process_command, hcmd, isResponse, mkErr]
  by_cases h1 : c = "initialize"
  · subst h1
    rcases hinit : initialize_model env s with ⟨s', e?, evs⟩
    rcases e? with _ | e <;>
      simp [process_command, hcmd, hinit, isResponse, mkErr]
  by_cases h2 : c = "generate_embedding"
  · subst h2
    by_cases ht : truthy ((jget fields "text").getD Json.null) = false
    · simp [process_command, hcmd, ht, isResponse, mkErr]
    · have ht' : truthy ((jget fields "text").getD Json.null) = true := by
        revert ht; cases truthy ((jget fields "text").getD Json.null) <;> simp
      rcases hinit : initialize_model env s with ⟨s', e?, evs⟩
      rcases e? with _ | e
      · rcases hp : env.pipeSingle ((jget fields "text").getD Json.null)
            ((jget fields "is_query").getD (Json.bool false)) with e | v <;>
          simp [process_command, hcmd, ht', hinit, hp, isResponse, mkErr]
      · simp [process_command, hcmd, ht', hinit, isResponse, mkErr]
  by_cases h3 : c = "generate_embeddings"
  · subst h3
    by_cases htx : truthy ((jget fields "texts").getD Json.null) = false ∨
        isArr ((jget fields "texts").getD Json.null) = false
    · rcases htx with h | h <;> simp [process_command, hcmd, h, isResponse, mkErr]
    · push_neg at htx
      have hA : truthy ((jget fields "texts").getD Json.null) = true := by
        revert htx; cases truthy ((jget fields "texts").getD Json.null) <;> simp
      have hB : isArr ((jget fields "texts").getD Json.null) = true := by
        revert htx; cases isArr ((jget fields "texts").getD Json.null) <;> simp
      rcases hinit : initialize_model env s with ⟨s', e?, evs⟩
      rcases e? with _ | e
      · rcases hp : env.pipeBatch ((jget fields "texts").getD Json.null)
            ((jget fields "is_query").getD (Json.bool false)) with e | vs <;>
          simp [process_command, hcmd, hA, hB, hinit, hp, isResponse, mkErr]
      · simp [process_command, hcmd, hA, hB, hinit, isResponse, mkErr]
  · simp [process_command, hcmd, h1, h2, h3, isResponse, mkErr]

/-- Every line's response is well shaped (including the Invalid JSON case). -/
theorem processLine_shape (env : Env) (s : PState) (line : Option Json) :
    isResponse (processLine env s line).2.1 = true := by
  rcases line with _ | j
  · simp [processLine, mkErr, isResponse]
  · simpa [processLine] using process_command_shape env s j

/-- C7: per-line error containment.  For every environment (including
arbitrarily failing loaders and pipelines), every starting state, and
every input stream, the service emits exactly one response per input
line, and every response is either a success payload or an
`{"error": string}` object; no exception escapes a line. -/
theorem c7_per_line_error_containment (env : Env) (s : PState)
    (lines : List (Option Json)) :
    ((runService env s lines).2.1).length = lines.length ∧
    ∀ j ∈ (runService env s lines).2.1, isResponse j = true := by
  induction lines generalizing s with
  | nil => simp [runService]
  | cons l ls ih =>
    obtain ⟨ihlen, ihshape⟩ := ih (processLine env s l).1
    constructor
    · simpa [runService] using ihlen
    · intro j hj
      rw [show runService env s (l :: ls) =
          ((runService env (processLine env s l).1 ls).1,
           (processLine env s l).2.1 ::
             (runService env (processLine env s l).1 ls).2.1,
           (processLine env s l).2.2 ++
             (runService env (processLine env s l).1 ls).2.2) from rfl] at hj
      rcases List.mem_cons.mp hj with h | h
      · rw [h]; exact processLine_shape env s l
      · exact ihshape j h

/-- Witness for C7 (it has no hypothesis beyond its universally
quantified inputs, but is exercised here on a stream with a bad line, an
unknown command, and a valid command). -/
theorem c7_per_line_error_containment_witness :
    ((runService envW ⟨none, none⟩
        [none, some (Json.obj []), some cmdNonStringTexts]).2.1).length = 3 ∧
    ∀ j ∈ (runService envW ⟨none, none⟩
        [none, some (Json.obj []), some cmdNonStringTexts]).2.1,
      isResponse j = true :=
  c7_per_line_error_containment envW ⟨none, none⟩
    [none, some (Json.obj []), some cmdNonStringTexts]

/-! ## Claim C9 -/

/-- Re-running `initialize_model` from the state it produced yields the
same state and the same exception outcome, for every state reachable in
a run (the tokenizer is never `None` while the model is set). -/
theorem initialize_model_stable (env : Env) (s : PState)
    (hinv : s.tokenizer = none → s.model = none) :
    (initialize_model env (initialize_model env s).1).1 =
      (initialize_model env s).1 ∧
    (initialize_model env (initialize_model env s).1).2.1 =
      (initialize_model env s).2.1 := by
  rcases s with ⟨tok, mdl⟩
  rcases tok with _ | t0 <;> rcases mdl with _ | m0
  · rcases hlt : env.loadTok with e | t
    · simp [initialize_model, hlt]
    · rcases hlm : env.loadModel with e | m
      · simp [initialize_model, hlt, hlm]
      · simp [initialize_model, hlt, hlm]
  · exact absurd (hinv rfl) (by simp)
  · rcases hlt : env.loadTok with e | t
    · simp [initialize_model, hlt]
    · rcases hlm : env.loadModel with e | m
      · simp [initialize_model, hlt, hlm]
      · simp [initialize_model, hlt, hlm]
  · simp [initialize_model]

/-- C9: determinism.  With a fixed environment (fixed loaders and fixed
tokenize/forward pipeline), processing the same `generate_embedding`
command twice in a row yields identical responses: the pipeline
introduces no randomness and depends on no state other than the
once-initialized handles. -/
theorem c9_generate_embedding_deterministic (env : Env) (s : PState)
    (fields : List (String × Json))
    (hinv : s.tokenizer = none → s.model = none)
    (hc : jget fields "command" = some (Json.str "generate_embedding")) :
    (process_command env (process_command env s (Json.obj fields)).1
        (Json.obj fields)).2.1 =
      (process_command env s (Json.obj fields)).2.1 := by
  by_cases htxt : truthy ((jget fields "text").getD Json.null) = false
  · simp [process_command, hc, htxt]
  · have htxt' : truthy ((jget fields "text").getD Json.null) = true := by
      revert htxt; cases truthy ((jget fields "text").getD Json.null) <;> simp
    obtain ⟨hst, her⟩ := initialize_model_stable env s hinv
    rcases h1 : initialize_model env s with ⟨s1, e1, evs1⟩
    rw [h1] at hst her
    rcases h2 : initialize_model env s1 with ⟨s2, e2, evs2⟩
    rw [h2] at hst her
    rcases e1 with _ | e
    · simp only at her
      rcases h3 : env.pipeSingle ((jget fields "text").getD Json.null)
          ((jget fields "is_query").getD (Json.bool false)) with e | v <;>
        simp [process_command, hc, htxt', h1, h2, her, h3]
    · simp only at her
      simp [process_command, hc, htxt', h1, h2, her]

/-- Witness for C9 on a concrete command and fresh state. -/
theorem c9_generate_embedding_deterministic_witness :
    (process_command envW (process_command envW ⟨none, none⟩
        (Json.obj [("command", Json.str "generate_embedding"),
                   ("text", Json.str "hi")])).1
      (Json.obj [("command", Json.str "generate_embedding"),
                 ("text", Json.str "hi")])).2.1 =
    (process_command envW ⟨none, none⟩
      (Json.obj [("command", Json.str "generate_embedding"),
                 ("text", Json.str "hi")])).2.1 :=
  c9_generate_embedding_deterministic envW ⟨none, none⟩
    [("command", Json.str "generate_embedding"), ("text", Json.str "hi")]
    (fun _ => rfl) rfl

/-! ## Claim C5 -/

/-- Counterexample to C5 as stated: on a run whose input stream is empty,
the model handle is created (both loads happen at startup, inside
`main()` before the stdin loop) although no command line is ever
received. -/
theorem c5_counterexample :
    Ev.modelLoad ∈ (runMain envW []).2 ∧
    Ev.recvLine ∉ (runMain envW []).2 := by
  decide

/-- From a ready state, `process_command` never reloads anything: the
state is preserved and only pipeline-call events can be emitted. -/
theorem process_command_ready (env : Env) (t m : ℕ) (cmd : Json) :
    (process_command env ⟨some t, some m⟩ cmd).1 = ⟨some t, some m⟩ ∧
    ∀ e ∈ (process_command env ⟨some t, some m⟩ cmd).2.2, e = Ev.pipeCall := by
  have hinit : initialize_model env ⟨some t, some m⟩ =
      (⟨some t, some m⟩, none, []) := by
    simp [initialize_model]
  rcases cmd with _ | b | n | t' | l | fields <;>
    try simp [process_command]
  rcases hcmd : (jget fields "command").getD Json.null with _ | b | n | c | l | f <;>
    try simp [process_command, hcmd]
  by_cases h1 : c = "initialize"
  · subst h1
    simp [process_command, hcmd, hinit]
  by_cases h2 : c = "generate_embedding"
  · subst h2
    by_cases ht : truthy ((jget fields "text").getD Json.null) = false
    · simp [process_command, hcmd, ht]
    · have ht' : truthy ((jget fields "text").getD Json.null) = true := by
        revert ht; cases truthy ((jget fields "text").getD Json.null) <;> simp
      rcases hp : env.pipeSingle ((jget fields "text").getD Json.null)
          ((jget fields "is_query").getD (Json.bool false)) with e | v <;>
        simp [process_command, hcmd, ht', hinit, hp]
  by_cases h3 : c = "generate_embeddings"
  · subst h3
    by_cases htx : truthy ((jget fields "texts").getD Json.null) = false ∨
        isArr ((jget fields "texts").getD Json.null) = false
    · rcases htx with h | h <;> simp [process_command, hcmd, h]
    · push_neg at htx
      have hA : truthy ((jget fields "texts").getD Json.null) = true := by
        revert htx; cases truthy ((jget fields "texts").getD Json.null) <;> simp
      have hB : isArr ((jget fields "texts").getD Json.null) = true := by
        revert htx; cases isArr ((jget fields "texts").getD Json.null) <;> simp
      rcases hp : env.pipeBatch ((jget fields "texts").getD Json.null)
          ((jget fields "is_query").getD (Json.bool false)) with e | vs <;>
        simp [process_command, hcmd, hA, hB, hinit, hp]
  · simp [process_command, hcmd, h1, h2, h3]

/-- From a ready state, the service loop preserves the state and emits
only line-received and pipeline-call events. -/
theorem runService_ready (env : Env) (t m : ℕ) (lines : List (Option Json)) :
    (runService env ⟨some t, some m⟩ lines).1 = ⟨some t, some m⟩ ∧
    ∀ e ∈ (runService env ⟨some t, some m⟩ lines).2.2,
      e = Ev.recvLine ∨ e = Ev.pipeCall := by
  induction lines with
  | nil => simp [runService]
  | cons l ls ih =>
    have hline : (processLine env ⟨some t, some m⟩ l).1 = ⟨some t, some m⟩ ∧
        ∀ e ∈ (processLine env ⟨some t, some m⟩ l).2.2,
          e = Ev.recvLine ∨ e = Ev.pipeCall := by
      rcases l with _ | j
      · simp [processLine]
      · obtain ⟨h1, h2⟩ := process_command_ready env t m j
        refine ⟨h1, ?_⟩
        intro e he
        rw [show (processLine env ⟨some t, some m⟩ (some j)).2.2 =
            Ev.recvLine :: (process_command env ⟨some t, some m⟩ j).2.2
          from rfl] at he
        rcases List.mem_cons.mp he with h | h
        · exact Or.inl h
        · exact Or.inr (h2 e h)
    constructor
    · rw [show (runService env ⟨some t, some m⟩ (l :: ls)).1 =
          (runService env (processLine env ⟨some t, some m⟩ l).1 ls).1
        from rfl, hline.1]
      exact ih.1
    · intro e he
      rw [show (runService env ⟨some t, some m⟩ (l :: ls)).2.2 =
          (processLine env ⟨some t, some m⟩ l).2.2 ++
            (runService env (processLine env ⟨some t, some m⟩ l).1 ls).2.2
        from rfl] at he
      rcases List.mem_append.mp he with h | h
      · exact hline.2 e h
      · rw [hline.1] at h
        exact ih.2 e h

/-- C5 (amended): the model handle is created eagerly at service startup
(when the loads succeed), before any input line is received, and it is
never recreated afterwards: the run's event trace starts with the
tokenizer and model creations and contains no further load event. -/
theorem c5_startup_initialization (env : Env) (lines : List (Option Json))
    (t m : ℕ) (ht : env.loadTok = Except.ok t)
    (hm : env.loadModel = Except.ok m) :
    ∃ rest, (runMain env lines).2 = Ev.tokLoad :: Ev.modelLoad :: rest ∧
      Ev.tokLoad ∉ rest ∧ Ev.modelLoad ∉ rest := by
  have hinit : initialize_model env ⟨none, none⟩ =
      (⟨some t, some m⟩, none, [Ev.tokLoad, Ev.modelLoad]) := by
    simp [initialize_model, ht, hm]
  obtain ⟨-, hevs⟩ := runService_ready env t m lines
  refine ⟨(runService env ⟨some t, some m⟩ lines).2.2, ?_, ?_, ?_⟩
  · simp [runMain, hinit]
  · intro hmem
    rcases hevs _ hmem with h | h <;> simp at h
  · intro hmem
    rcases hevs _ hmem with h | h <;> simp at h

/-- Witness for the amended C5 on a one-line stream. -/
theorem c5_startup_initialization_witness :
    ∃ rest, (runMain envW [some (Json.obj [])]).2 =
        Ev.tokLoad :: Ev.modelLoad :: rest ∧
      Ev.tokLoad ∉ rest ∧ Ev.modelLoad ∉ rest :=
  c5_startup_initialization envW [some (Json.obj [])] 0 0 rfl rfl

end EmbeddingService
